import Mathlib

/-!
Verification development for the gno precompile (transpile) pipeline.

The Go sources embedded here are:
  * `gnovm/pkg/precompile/precompile.go`
  * `gnovm/pkg/gnolang/precompile.go`  (a near-identical copy of the same logic)

Go strings are modelled as `List Char`; Go's `error` values produced by
`multierr` are modelled as a `List GoStr` of the individual messages
(`[]` corresponds to a `nil` error).  External collaborators (the Go
parser, `go/format`, the OS, the toolchain processes) are modelled as
environment data; the control flow of each embedded function follows its
Go source line by line.
-/

namespace GnoPrecompile

/-- Go strings, modelled as lists of characters. -/
abbrev GoStr := List Char

/-- Coerce a Lean string literal to the `GoStr` model. -/
def str (s : String) : GoStr := s.data

/-- Models Go `strings.HasPrefix sfx`: `pfx` is a prefix of `s`. -/
def hasPfx : GoStr → GoStr → Bool
  | _, [] => true
  | [], _ :: _ => false
  | a :: as, b :: bs => a == b && hasPfx as bs

/-- Models Go `strings.HasSuffix`. -/
def hasSfx (s sfx : GoStr) : Bool := hasPfx s.reverse sfx.reverse

/-- Models Go `strings.TrimPrefix`. -/
def trimPfx (s pfx : GoStr) : GoStr :=
  if hasPfx s pfx then s.drop pfx.length else s

/-- Models Go `strings.TrimSuffix`. -/
def trimSfx (s sfx : GoStr) : GoStr :=
  if hasSfx s sfx then s.take (s.length - sfx.length) else s

/-- Models Go `strings.Contains`. -/
def containsSub (s pat : GoStr) : Bool :=
  hasPfx s pat ||
    match s with
    | [] => false
    | _ :: rest => containsSub rest pat

theorem hasPfx_iff (s pfx : GoStr) : hasPfx s pfx = true ↔ pfx <+: s := by
  induction s generalizing pfx with
  | nil =>
    cases pfx with
    | nil => simp [hasPfx]
    | cons b bs => simp [hasPfx]
  | cons a as ih =>
    cases pfx with
    | nil => simp [hasPfx]
    | cons b bs =>
      simp only [hasPfx, Bool.and_eq_true, beq_iff_eq, ih, List.cons_prefix_cons]
      tauto

theorem hasPfx_append (a b : GoStr) : hasPfx (a ++ b) a = true := by
  rw [hasPfx_iff]; exact List.prefix_append a b

theorem hasSfx_iff (s sfx : GoStr) : hasSfx s sfx = true ↔ sfx <:+ s := by
  rw [hasSfx, hasPfx_iff]
  exact List.reverse_prefix

theorem hasSfx_append (a b : GoStr) : hasSfx (a ++ b) b = true := by
  rw [hasSfx_iff]; exact List.suffix_append a b

/-- First occurrence of `sep` in `s`: returns `(before, after)` split around it. -/
def splitOnce : GoStr → GoStr → Option (GoStr × GoStr)
  | s, sep =>
    if hasPfx s sep then some ([], s.drop sep.length)
    else
      match s with
      | [] => none
      | c :: rest => (splitOnce rest sep).map (fun p => (c :: p.1, p.2))

/-- Fuel-driven worker for `goSplit` (the fuel `s.length + 1` always suffices). -/
def goSplitAux : Nat → GoStr → GoStr → List GoStr
  | 0, s, _ => [s]
  | n + 1, s, sep =>
    match splitOnce s sep with
    | none => [s]
    | some (pre, post) => pre :: goSplitAux n post sep

/-- Models Go `strings.Split` for a non-empty separator: splits `s` around
every non-overlapping occurrence of `sep`. -/
def goSplit (s sep : GoStr) : List GoStr := goSplitAux (s.length + 1) s sep

/-- The set of white-space code points recognised by Go `unicode.IsSpace`. -/
def isGoSpace (c : Char) : Bool :=
  [0x9, 0xA, 0xB, 0xC, 0xD, 0x20, 0x85, 0xA0, 0x1680, 0x2000, 0x2001, 0x2002,
    0x2003, 0x2004, 0x2005, 0x2006, 0x2007, 0x2008, 0x2009, 0x200A, 0x2028,
    0x2029, 0x202F, 0x205F, 0x3000].contains c.toNat

/-- Models Go `strings.TrimSpace`. -/
def goTrimSpace (s : GoStr) : GoStr :=
  ((s.dropWhile isGoSpace).reverse.dropWhile isGoSpace).reverse

/-- Decimal rendering of a natural number, as Go `fmt.Sprintf` with `%d`. -/
def natToStr (n : Nat) : GoStr := (Nat.repr n).data

theorem splitOnce_eq_none (s sep : GoStr) (h : containsSub s sep = false) :
    splitOnce s sep = none := by
  induction s with
  | nil =>
    rw [containsSub] at h
    simp only [Bool.or_eq_false_iff] at h
    rw [splitOnce]
    simp [h.1]
  | cons c rest ih =>
    rw [containsSub] at h
    simp only [Bool.or_eq_false_iff] at h
    rw [splitOnce]
    simp [h.1, ih h.2]

theorem goSplit_of_not_contains (s sep : GoStr) (h : containsSub s sep = false) :
    goSplit s sep = [s] := by
  rw [goSplit, goSplitAux, splitOnce_eq_none s sep h]

-- ==================================================================
-- Constants shared by both copies of the source
-- ==================================================================

def GnoRealmPkgsPrefixBefore : GoStr := str "gno.land/r/"
def GnoRealmPkgsPrefixAfter : GoStr := str "github.com/gnolang/gno/examples/gno.land/r/"
def GnoPackagePrefixBefore : GoStr := str "gno.land/p/demo/"
def GnoPackagePrefixAfter : GoStr := str "github.com/gnolang/gno/examples/gno.land/p/demo/"
def GnoStdPkgBefore : GoStr := str "std"
def GnoStdPkgAfter : GoStr := str "github.com/gnolang/gno/gnovm/stdlibs/stdshim"

def stdlibWhitelist : List GoStr :=
  [str "bufio", str "bytes", str "compress/gzip", str "context", str "crypto/md5",
   str "crypto/sha1", str "crypto/sha256", str "encoding/base64", str "encoding/binary",
   str "encoding/hex", str "encoding/json", str "encoding/xml", str "errors", str "flag",
   str "fmt", str "io", str "io/util", str "math", str "math/big", str "math/rand",
   str "regexp", str "sort", str "strconv", str "strings", str "text/template",
   str "time", str "unicode/utf8", str "std"]

def importPrefixWhitelist : List GoStr := [str "github.com/gnolang/gno/_test"]

-- ==================================================================
-- Import policy: the two passes of precompileAST
-- ==================================================================

/-- The acceptance condition of the whitelist pass, in the order the source
checks it: realm prefix, package prefix, exact stdlib entry, test-harness
prefix. -/
def importAllowed (ip : GoStr) : Bool :=
  hasPfx ip GnoRealmPkgsPrefixBefore ||
  hasPfx ip GnoPackagePrefixBefore ||
  stdlibWhitelist.contains ip ||
  importPrefixWhitelist.any (fun w => hasPfx ip w)

/-- The message of `fmt.Errorf("import %q is not in the whitelist", ...)`. -/
def violationMsg (ip : GoStr) : GoStr :=
  str "import \"" ++ ip ++ str "\" is not in the whitelist"

/-- The whitelist pass: one violation appended per import that matches no
accept rule (`multierr.Append` accumulation). -/
def whitelistPass (imports : List GoStr) : List GoStr :=
  imports.foldl
    (fun errs ip => if importAllowed ip then errs else errs ++ [violationMsg ip]) []

/-- The message of `fmt.Errorf("failed to replace the %q package with %q", ...)`. -/
def rewriteFailMsg (b a : GoStr) : GoStr :=
  str "failed to replace the \"" ++ b ++ str "\" package with \"" ++ a ++
    str "\""

/-- Models `astutil.RewriteImport`: rewrites in place every import spec whose
path equals `b` to `a`; the Bool is whether any spec was rewritten. -/
def rewriteAll (l : List GoStr) (b a : GoStr) : Bool × List GoStr :=
  (l.contains b, l.map fun x => if x = b then a else x)

/-- Applies one rewrite rule `b → a` to the state: the file's import specs
are mutated by `RewriteImport` and a failure message is appended when it
reported no match. -/
def applyRewrite (st : List GoStr × List GoStr) (b a : GoStr) :
    List GoStr × List GoStr :=
  ((rewriteAll st.1 b a).2,
   if (rewriteAll st.1 b a).1 then st.2 else st.2 ++ [rewriteFailMsg b a])

/-- The `// std package` block of the rewrite loop. -/
def stdRule (ip : GoStr) (st : List GoStr × List GoStr) : List GoStr × List GoStr :=
  if ip = GnoStdPkgBefore then applyRewrite st GnoStdPkgBefore GnoStdPkgAfter
  else st

/-- The `// p/pkg packages` block of the rewrite loop. -/
def pkgRule (ip : GoStr) (st : List GoStr × List GoStr) : List GoStr × List GoStr :=
  if hasPfx ip GnoPackagePrefixBefore then
    applyRewrite st ip (GnoPackagePrefixAfter ++ trimPfx ip GnoPackagePrefixBefore)
  else st

/-- The `// r/realm packages` block of the rewrite loop. -/
def realmRule (ip : GoStr) (st : List GoStr × List GoStr) : List GoStr × List GoStr :=
  if hasPfx ip GnoRealmPkgsPrefixBefore then
    applyRewrite st ip (GnoRealmPkgsPrefixAfter ++ trimPfx ip GnoRealmPkgsPrefixBefore)
  else st

/-- One iteration of the rewrite loop of `precompileAST`: reads the current
value of import spec `i` once, then applies the source's three sequential
`if` blocks, recording a failure message when `RewriteImport` reports no
match.  The state is (current import-spec values of the mutated file,
accumulated errors). -/
def rewriteIter (st : List GoStr × List GoStr) (i : Nat) : List GoStr × List GoStr :=
  realmRule (st.1.getD i []) (pkgRule (st.1.getD i []) (stdRule (st.1.getD i []) st))

/-- The rewrite pass: iterates over every import spec of the file (the
snapshot taken by `astutil.Imports`), mutating the file in place. -/
def rewritePass (imports : List GoStr) : List GoStr × List GoStr :=
  (List.range imports.length).foldl rewriteIter (imports, [])

/-- Embeds `precompileAST` (identical in both source copies): whitelist check
(when enabled) then import rewriting, all errors accumulated into one
aggregate; returns (import paths of the mutated tree, aggregate error as the
list of its individual messages, `[]` standing for `nil`). -/
def precompileAST (imports : List GoStr) (checkWhitelist : Bool) :
    List GoStr × List GoStr :=
  let werrs := if checkWhitelist then whitelistPass imports else []
  let r := rewritePass imports
  (r.1, werrs ++ r.2)

/-- The per-import effect of the rewrite pass (derived characterisation used
by the proofs; the rules are mutually exclusive). -/
def applyRule (ip : GoStr) : GoStr :=
  if ip = GnoStdPkgBefore then GnoStdPkgAfter
  else if hasPfx ip GnoPackagePrefixBefore then
    GnoPackagePrefixAfter ++ trimPfx ip GnoPackagePrefixBefore
  else if hasPfx ip GnoRealmPkgsPrefixBefore then
    GnoRealmPkgsPrefixAfter ++ trimPfx ip GnoRealmPkgsPrefixBefore
  else ip

/-- No rewrite rule fires on `y`. -/
def ruleFree (y : GoStr) : Prop :=
  y ≠ GnoStdPkgBefore ∧ hasPfx y GnoPackagePrefixBefore = false ∧
    hasPfx y GnoRealmPkgsPrefixBefore = false

-- ==================================================================
-- Characterisation of the rewrite pass
-- ==================================================================

theorem hasPfx_append_false (a t b : GoStr) (hlen : b.length ≤ a.length)
    (h : hasPfx a b = false) : hasPfx (a ++ t) b = false := by
  rw [Bool.eq_false_iff] at h ⊢
  intro hc
  apply h
  rw [hasPfx_iff] at hc ⊢
  exact List.prefix_of_prefix_length_le hc (List.prefix_append a t) hlen

theorem append_ne_of_length_lt (a t b : GoStr) (h : b.length < a.length) :
    a ++ t ≠ b := by
  intro he
  have hl := congrArg List.length he
  simp only [List.length_append] at hl
  omega

/-- Every value the rewrite pass can produce is either untouched or outside
the trigger set of all three rules. -/
theorem applyRule_disj (x : GoStr) : applyRule x = x ∨ ruleFree (applyRule x) := by
  rw [applyRule]
  by_cases h1 : x = GnoStdPkgBefore
  · right
    simp only [h1, if_pos rfl]
    exact ⟨by decide, by decide, by decide⟩
  · rw [if_neg h1]
    by_cases h2 : hasPfx x GnoPackagePrefixBefore = true
    · right
      rw [if_pos h2]
      refine ⟨append_ne_of_length_lt _ _ _ (by decide), ?_, ?_⟩
      · exact hasPfx_append_false _ _ _ (by decide) (by decide)
      · exact hasPfx_append_false _ _ _ (by decide) (by decide)
    · rw [if_neg h2]
      by_cases h3 : hasPfx x GnoRealmPkgsPrefixBefore = true
      · right
        rw [if_pos h3]
        refine ⟨append_ne_of_length_lt _ _ _ (by decide), ?_, ?_⟩
        · exact hasPfx_append_false _ _ _ (by decide) (by decide)
        · exact hasPfx_append_false _ _ _ (by decide) (by decide)
      · left
        rw [if_neg h3]

/-- Path `ip` matches some rewrite rule. -/
def ruleHits (ip : GoStr) : Prop :=
  ip = GnoStdPkgBefore ∨ hasPfx ip GnoPackagePrefixBefore = true ∨
    hasPfx ip GnoRealmPkgsPrefixBefore = true

theorem not_ruleHits_of_ruleFree (y : GoStr) (h : ruleFree y) : ¬ ruleHits y := by
  rintro (h1 | h2 | h3)
  · exact h.1 h1
  · rw [h.2.1] at h2; exact Bool.false_ne_true h2
  · rw [h.2.2] at h3; exact Bool.false_ne_true h3

theorem applyRule_eq_self_of_eq (x y : GoStr) (hy : ruleHits y)
    (hxy : applyRule x = y) : x = y := by
  rcases applyRule_disj x with h | h
  · rw [← hxy, h]
  · exact absurd hy (hxy ▸ not_ruleHits_of_ruleFree _ h)

theorem getD_map_lt (f : GoStr → GoStr) (l : List GoStr) (j : Nat)
    (h : j < l.length) : (l.map f).getD j [] = f (l.getD j []) := by
  rw [List.getD_eq_getElem _ _ (by simpa using h), List.getD_eq_getElem _ _ h,
    List.getElem_map]

theorem applyRule_eq_self_of_ruleFree (y : GoStr) (h : ruleFree y) :
    applyRule y = y := by
  rw [applyRule, if_neg h.1, if_neg (by simp [h.2.1]), if_neg (by simp [h.2.2])]

theorem contains_eq_true_of_mem (l : List GoStr) (b : GoStr) (h : b ∈ l) :
    l.contains b = true :=
  List.elem_eq_true_of_mem h

theorem stdRule_neg (ip : GoStr) (st : List GoStr × List GoStr)
    (h : ip ≠ GnoStdPkgBefore) : stdRule ip st = st := by
  rw [stdRule, if_neg h]

theorem pkgRule_neg (ip : GoStr) (st : List GoStr × List GoStr)
    (h : hasPfx ip GnoPackagePrefixBefore = false) : pkgRule ip st = st := by
  rw [pkgRule, if_neg (by simp [h])]

theorem realmRule_neg (ip : GoStr) (st : List GoStr × List GoStr)
    (h : hasPfx ip GnoRealmPkgsPrefixBefore = false) : realmRule ip st = st := by
  rw [realmRule, if_neg (by simp [h])]

/-- Two distinct path prefixes of the rule set cannot both match: the shorter
would have to be a prefix of the longer. -/
theorem pkg_realm_exclusive (ip : GoStr)
    (h2 : hasPfx ip GnoPackagePrefixBefore = true) :
    hasPfx ip GnoRealmPkgsPrefixBefore = false := by
  rw [Bool.eq_false_iff]
  intro hr
  have : GnoRealmPkgsPrefixBefore <+: GnoPackagePrefixBefore :=
    List.prefix_of_prefix_length_le ((hasPfx_iff _ _).mp hr)
      ((hasPfx_iff _ _).mp h2) (by decide)
  exact absurd ((hasPfx_iff _ _).mpr this) (by decide)

theorem std_pkg_exclusive (ip : GoStr) (h : ip = GnoStdPkgBefore) :
    hasPfx ip GnoPackagePrefixBefore = false := by
  rw [h]; decide

theorem std_realm_exclusive (ip : GoStr) (h : ip = GnoStdPkgBefore) :
    hasPfx ip GnoRealmPkgsPrefixBefore = false := by
  rw [h]; decide

theorem pkg_std_exclusive (ip : GoStr)
    (h : hasPfx ip GnoPackagePrefixBefore = true) : ip ≠ GnoStdPkgBefore := by
  intro he
  rw [std_pkg_exclusive ip he] at h
  exact Bool.false_ne_true h

theorem realm_std_exclusive (ip : GoStr)
    (h : hasPfx ip GnoRealmPkgsPrefixBefore = true) : ip ≠ GnoStdPkgBefore := by
  intro he
  rw [std_realm_exclusive ip he] at h
  exact Bool.false_ne_true h

theorem realm_pkg_exclusive (ip : GoStr)
    (h : hasPfx ip GnoRealmPkgsPrefixBefore = true) :
    hasPfx ip GnoPackagePrefixBefore = false := by
  rw [Bool.eq_false_iff]
  intro hp
  rw [pkg_realm_exclusive ip hp] at h
  exact Bool.false_ne_true h

theorem applyRewrite_found (cur errs : List GoStr) (b a : GoStr) (h : b ∈ cur) :
    applyRewrite (cur, errs) b a =
      (cur.map (fun x => if x = b then a else x), errs) := by
  simp only [applyRewrite, rewriteAll, contains_eq_true_of_mem _ _ h, if_true]

/-- Effect of one iteration of the rewrite loop: the import read at index `i`
is pushed through its (unique) matching rule, rewriting every occurrence of
that same path, and no failure message is recorded. -/
theorem rewriteIter_spec (cur errs : List GoStr) (i : Nat) (h : i < cur.length) :
    rewriteIter (cur, errs) i =
      (cur.map (fun x => if x = cur.getD i [] then applyRule (cur.getD i []) else x),
        errs) := by
  have hmem : cur.getD i [] ∈ cur := by
    rw [List.getD_eq_getElem _ _ h]
    exact cur.getElem_mem h
  show realmRule (cur.getD i []) (pkgRule (cur.getD i [])
    (stdRule (cur.getD i []) (cur, errs))) = _
  by_cases h1 : cur.getD i [] = GnoStdPkgBefore
  · have happ : applyRule (cur.getD i []) = GnoStdPkgAfter := by
      rw [applyRule, if_pos h1]
    rw [stdRule, if_pos h1, applyRewrite_found cur errs _ _ (h1 ▸ hmem),
      pkgRule_neg _ _ (std_pkg_exclusive _ h1),
      realmRule_neg _ _ (std_realm_exclusive _ h1), happ, h1]
  · by_cases h2 : hasPfx (cur.getD i []) GnoPackagePrefixBefore = true
    · have happ : applyRule (cur.getD i []) =
          GnoPackagePrefixAfter ++ trimPfx (cur.getD i []) GnoPackagePrefixBefore := by
        rw [applyRule, if_neg h1, if_pos h2]
      rw [stdRule_neg _ _ h1, pkgRule, if_pos h2, applyRewrite_found cur errs _ _ hmem,
        realmRule_neg _ _ (pkg_realm_exclusive _ h2), happ]
    · by_cases h3 : hasPfx (cur.getD i []) GnoRealmPkgsPrefixBefore = true
      · have happ : applyRule (cur.getD i []) =
            GnoRealmPkgsPrefixAfter ++ trimPfx (cur.getD i []) GnoRealmPkgsPrefixBefore := by
          rw [applyRule, if_neg h1, if_neg h2, if_pos h3]
        rw [stdRule_neg _ _ h1, pkgRule_neg _ _ (by simpa using h2), realmRule,
          if_pos h3, applyRewrite_found cur errs _ _ hmem, happ]
      · have happ : applyRule (cur.getD i []) = cur.getD i [] := by
          rw [applyRule, if_neg h1, if_neg h2, if_neg h3]
        have hmap : (cur.map
            (fun x => if x = cur.getD i [] then applyRule (cur.getD i []) else x)) = cur := by
          have hfun : ∀ x ∈ cur,
              (if x = cur.getD i [] then applyRule (cur.getD i []) else x) = x := by
            intro x _
            by_cases hx : x = cur.getD i []
            · rw [if_pos hx, happ, hx]
            · rw [if_neg hx]
          rw [List.map_congr_left hfun, List.map_id']
        rw [stdRule_neg _ _ h1, pkgRule_neg _ _ (by simpa using h2),
          realmRule_neg _ _ (by simpa using h3), hmap]

/-- Invariant of the rewrite fold after processing the first `k` imports. -/
def RewriteInv (k : Nat) (orig cur : List GoStr) : Prop :=
  cur.length = orig.length ∧
  (∀ j, j < orig.length →
    cur.getD j [] = orig.getD j [] ∨ cur.getD j [] = applyRule (orig.getD j [])) ∧
  (∀ j, j < k → j < orig.length → cur.getD j [] = applyRule (orig.getD j []))

theorem applyRule_idem (o : GoStr) : applyRule (applyRule o) = applyRule o := by
  rcases applyRule_disj o with h | h
  · rw [h]; exact h
  · exact applyRule_eq_self_of_ruleFree _ h

/-- Values of `applyRule` are fixed points of the substitution a later iteration
of the rewrite loop performs. -/
theorem applyRule_subst_fixed (ip o : GoStr) :
    (if applyRule o = ip then applyRule ip else applyRule o) = applyRule o := by
  by_cases hx : applyRule o = ip
  · rw [if_pos hx, ← hx, applyRule_idem]
  · rw [if_neg hx]

theorem rewriteInv_step (k : Nat) (orig cur : List GoStr)
    (inv : RewriteInv k orig cur) (hk : k < orig.length) :
    RewriteInv (k + 1) orig
      (cur.map (fun x => if x = cur.getD k [] then applyRule (cur.getD k []) else x)) := by
  obtain ⟨hlen, hdisj, hproc⟩ := inv
  have hklt : k < cur.length := hlen ▸ hk
  refine ⟨by simpa using hlen, ?_, ?_⟩
  · intro j hj
    have hjlt : j < cur.length := hlen ▸ hj
    rw [getD_map_lt _ _ _ hjlt]
    rcases hdisj j hj with hc | hc
    · rw [hc]
      by_cases hx : orig.getD j [] = cur.getD k []
      · right; rw [if_pos hx, hx]
      · rw [if_neg hx]; left; rfl
    · rw [hc]
      right
      by_cases hx : applyRule (orig.getD j []) = cur.getD k []
      · rw [if_pos hx, ← hx, applyRule_idem]
      · rw [if_neg hx]
  · intro j hj hjlen
    have hjlt : j < cur.length := hlen ▸ hjlen
    rw [getD_map_lt _ _ _ hjlt]
    rcases Nat.lt_succ_iff_lt_or_eq.mp hj with hjk | hjk
    · rw [hproc j hjk hjlen, applyRule_subst_fixed]
    · subst hjk
      rw [if_pos rfl]
      rcases hdisj j hjlen with hc | hc
      · rw [hc]
      · rw [hc, applyRule_idem]

/-- After the whole rewrite fold, every import spec holds its rewritten value
and no rewrite-failure message has been recorded. -/
theorem rewrite_fold (orig : List GoStr) :
    ∀ k, k ≤ orig.length →
      ∃ cur, (List.range k).foldl rewriteIter (orig, []) = (cur, []) ∧
        RewriteInv k orig cur := by
  intro k
  induction k with
  | zero =>
    intro _
    exact ⟨orig, rfl, rfl, fun j _ => Or.inl rfl, fun j hj _ => absurd hj (by omega)⟩
  | succ k ih =>
    intro hk1
    obtain ⟨cur, heq, inv⟩ := ih (by omega)
    have hklt : k < cur.length := inv.1 ▸ (by omega)
    refine ⟨cur.map (fun x => if x = cur.getD k [] then applyRule (cur.getD k []) else x),
      ?_, rewriteInv_step k orig cur inv (by omega)⟩
    rw [List.range_succ, List.foldl_append, heq, List.foldl_cons, List.foldl_nil,
      rewriteIter_spec cur [] k hklt]

/-- The rewrite pass maps every import through its unique matching rule and
never produces a rewrite-failure error. -/
theorem rewritePass_eq (orig : List GoStr) :
    rewritePass orig = (orig.map applyRule, []) := by
  obtain ⟨cur, heq, hlen, _, hproc⟩ := rewrite_fold orig orig.length le_rfl
  rw [rewritePass, heq]
  refine Prod.ext ?_ rfl
  show cur = orig.map applyRule
  apply List.ext_getElem (by simp [hlen])
  intro j h1 h2
  have hj : j < orig.length := by simpa using h2
  have := hproc j hj hj
  rw [List.getD_eq_getElem _ _ h1, List.getD_eq_getElem _ _ hj] at this
  rw [this, List.getElem_map]

theorem whitelistPass_go (l acc : List GoStr) :
    l.foldl (fun errs ip => if importAllowed ip then errs
      else errs ++ [violationMsg ip]) acc
      = acc ++ ((l.filter fun ip => !importAllowed ip).map violationMsg) := by
  induction l generalizing acc with
  | nil => simp
  | cons x xs ih =>
    rw [List.foldl_cons, ih, List.filter_cons]
    by_cases hx : importAllowed x = true
    · simp [hx]
    · have hx' : importAllowed x = false := Bool.eq_false_iff.mpr hx
      simp [hx', List.append_assoc]

/-- The whitelist pass emits exactly one violation message per import that
matches no accept rule, in import order. -/
theorem whitelistPass_eq (l : List GoStr) :
    whitelistPass l = (l.filter fun ip => !importAllowed ip).map violationMsg := by
  rw [whitelistPass, whitelistPass_go, List.nil_append]

/-- Closed form of `precompileAST`: the mutated tree's imports are the
rewritten paths, and the aggregate error consists exactly of the whitelist
violations (when the check runs) — the rewrite pass itself never fails. -/
theorem precompileAST_eq (imports : List GoStr) (chk : Bool) :
    precompileAST imports chk =
      (imports.map applyRule,
        if chk then (imports.filter fun ip => !importAllowed ip).map violationMsg
        else []) := by
  rw [precompileAST, rewritePass_eq]
  cases chk with
  | false => simp
  | true => simp [whitelistPass_eq]

-- ==================================================================
-- Precompile: the core translate logic (identical in both source copies)
-- ==================================================================

/-- The outcome of the external Go parser and `go/format` renderer on one
dialect module: the import paths of the parsed file, the bytes `format.Node`
writes into the output buffer for the transformed tree (partial when the
renderer fails midway), and whether `format.Node` returns an error. -/
structure ParsedFile where
  imports : List GoStr
  formatOut : GoStr
  formatErr : Bool
  deriving DecidableEq

/-- A dialect source unit as seen by `Precompile`: either the host-grammar
parse fails with a diagnostic, or it yields a `ParsedFile`. -/
structure GoSource where
  parse : Except GoStr ParsedFile

/-- The result struct `precompileResult` of the source. -/
structure precompileResult where
  Imports : List GoStr
  Translated : GoStr
  deriving DecidableEq

def generatedHeader : GoStr :=
  str "// Code generated by github.com/gnolang/gno. DO NOT EDIT.\n\n"

/-- Embeds `Precompile(source, tags, filename)`.  The Go function returns the
pair `(*precompileResult, error)`; the error is modelled as the list of its
individual messages (`[]` for `nil`).  Control flow follows the source:
parse, whitelist decision from the filename suffix, `precompileAST`
(returning `nil, err` when its aggregate error is non-nil), header
assembly, and `format.Node` — whose returned error the source drops on the
floor before returning `res, nil`. -/
def Precompile (src : GoSource) (tags : GoStr) (filename : GoStr) :
    Option precompileResult × List GoStr :=
  match src.parse with
  | .error e => (none, [str "parse: " ++ e])
  | .ok f =>
    let isTestFile := hasSfx filename (str "_test.gno") ||
      hasSfx filename (str "_filetest.gno")
    let shouldCheckWhitelist := !isTestFile
    let r := precompileAST f.imports shouldCheckWhitelist
    if r.2 ≠ [] then (none, r.2)
    else
      let header : GoStr :=
        if tags ≠ str "no_header" then
          generatedHeader ++
            (if tags ≠ [] then str "//go:build " ++ tags ++ str "\n\n" else [])
        else []
      (some ⟨r.1, header ++ f.formatOut⟩, [])

/-- The error component returned by `Precompile` on a successfully parsed
module is exactly the aggregate error of `precompileAST`. -/
theorem Precompile_snd_ok (f : ParsedFile) (tags fn : GoStr) :
    (Precompile ⟨.ok f⟩ tags fn).2 =
      (precompileAST f.imports
        (!(hasSfx fn (str "_test.gno") || hasSfx fn (str "_filetest.gno")))).2 := by
  show (if h : _ then _ else _ : Option precompileResult × List GoStr).2 = _
  by_cases h : (precompileAST f.imports
      (!(hasSfx fn (str "_test.gno") || hasSfx fn (str "_filetest.gno")))).2 ≠ []
  · rw [dif_pos h]
  · rw [dif_neg h]
    exact (not_ne_iff.mp h).symm

-- Concrete modules used by the closed-form theorems below.

/-- A module importing one non-whitelisted path, as an in-memory parse. -/
def srcBadImport : GoSource := ⟨.ok ⟨[str "foo"], str "package main\n", false⟩⟩

/-- A module whose parse fails outright. -/
def srcParseErr : GoSource := ⟨.error (str "boom")⟩

/-- A module whose renderer (`format.Node`) fails having produced no output. -/
def srcFmtErr : GoSource := ⟨.ok ⟨[str "fmt"], [], true⟩⟩

/-- C1 counterexample: on a module whose import-policy pass produces a
non-nil aggregate error (here one whitelist violation), `Precompile` returns
a non-nil error but **no** result at all — contradicting the claim that the
generated text is still returned alongside the error. -/
theorem c1_counterexample :
    (Precompile srcBadImport (str "gno") (str "a.gno")).2 =
        [violationMsg (str "foo")] ∧
    (Precompile srcBadImport (str "gno") (str "a.gno")).1 = none := by decide

/-- C1 (amended): whenever `Precompile` reports a non-nil error — a parse
failure or a non-nil aggregate from the import-policy pass — it returns no
result: code generation is skipped, and a caller never receives generated
text alongside an error. -/
theorem c1_amended (src : GoSource) (tags filename : GoStr)
    (h : (Precompile src tags filename).2 ≠ []) :
    (Precompile src tags filename).1 = none := by
  cases hp : src.parse with
  | error e => simp [Precompile, hp]
  | ok f =>
    simp only [Precompile, hp] at h ⊢
    by_cases herr : (precompileAST f.imports
        (!(hasSfx filename (str "_test.gno") ||
           hasSfx filename (str "_filetest.gno")))).2 ≠ []
    · rw [if_pos herr]
    · rw [if_neg herr] at h ⊢
      exact absurd rfl h

/-- Witness for `c1_amended` at a concrete input (a parse failure). -/
theorem c1_amended_witness :
    (Precompile srcParseErr (str "gno") (str "a.gno")).2 ≠ [] ∧
    (Precompile srcParseErr (str "gno") (str "a.gno")).1 = none :=
  ⟨by decide, c1_amended srcParseErr (str "gno") (str "a.gno") (by decide)⟩

/-- C2: the renderer's error is dropped on the floor.  For any parsed module
the result of `Precompile` is the same whether `format.Node` failed or not,
and at the concrete failing input `srcFmtErr` (renderer fails with an empty
partial buffer) `Precompile` returns a success: a non-nil result containing
just the generated header, together with a nil error — instead of the
CodeGenError with a discarded buffer that the specification describes. -/
theorem c2_format_error_ignored :
    (∀ (i : List GoStr) (o tags fn : GoStr),
      Precompile ⟨.ok ⟨i, o, true⟩⟩ tags fn =
        Precompile ⟨.ok ⟨i, o, false⟩⟩ tags fn) ∧
    Precompile srcFmtErr (str "gno") (str "a.gno") =
      (some ⟨[str "fmt"], generatedHeader ++ str "//go:build gno\n\n"⟩, []) :=
  ⟨fun _ _ _ _ => rfl, by decide⟩

/-- C5: for a set of imports none of which matches a whitelist rule,
translating an implementation-kind module yields an aggregate error holding
exactly one violation entry per disallowed import (all accumulated in one
pass, in import order), while translating a test-kind or file-test-kind
module with the same imports yields zero violation entries. -/
theorem c5_whitelist_violations (imports : List GoStr) (out : GoStr) (b : Bool)
    (tags fImpl fTest : GoStr)
    (hnodup : imports.Nodup)
    (hbad : ∀ ip ∈ imports, importAllowed ip = false)
    (hImpl : hasSfx fImpl (str "_test.gno") = false ∧
      hasSfx fImpl (str "_filetest.gno") = false)
    (hTest : hasSfx fTest (str "_test.gno") = true ∨
      hasSfx fTest (str "_filetest.gno") = true) :
    (Precompile ⟨.ok ⟨imports, out, b⟩⟩ tags fImpl).2 = imports.map violationMsg ∧
    (Precompile ⟨.ok ⟨imports, out, b⟩⟩ tags fTest).2 = [] := by
  constructor
  · rw [Precompile_snd_ok]
    show (precompileAST imports _).2 = _
    rw [hImpl.1, hImpl.2, precompileAST_eq]
    simp only [Bool.or_self, Bool.not_false, if_true]
    have : imports.filter (fun ip => !importAllowed ip) = imports :=
      List.filter_eq_self.mpr (fun ip hip => by rw [hbad ip hip]; rfl)
    rw [this]
  · rw [Precompile_snd_ok]
    show (precompileAST imports _).2 = _
    have : (hasSfx fTest (str "_test.gno") || hasSfx fTest (str "_filetest.gno")) = true := by
      rcases hTest with h | h <;> simp [h]
    rw [this, precompileAST_eq]
    simp

/-- Witness for `c5_whitelist_violations` at two concrete bad imports. -/
theorem c5_witness :
    (Precompile ⟨.ok ⟨[str "foo", str "bar"], [], false⟩⟩ (str "gno")
        (str "a.gno")).2 = [violationMsg (str "foo"), violationMsg (str "bar")] ∧
    (Precompile ⟨.ok ⟨[str "foo", str "bar"], [], false⟩⟩ (str "gno")
        (str "a_test.gno")).2 = [] :=
  c5_whitelist_violations [str "foo", str "bar"] [] false (str "gno")
    (str "a.gno") (str "a_test.gno") (by decide) (by decide) (by decide)
    (by decide)

/-- C10: the import list of a successful translation result is taken from the
mutated tree, so it holds the post-rewrite targets: every import is mapped
through its rewrite rule, and in particular a module importing the `"std"`
alias reports the stdlib shim path in its place, never `"std"` itself. -/
theorem c10_imports_rewritten (f : ParsedFile) (tags filename : GoStr)
    (res : precompileResult)
    (h : (Precompile ⟨.ok f⟩ tags filename).1 = some res) :
    res.Imports = f.imports.map applyRule ∧
    (GnoStdPkgBefore ∈ f.imports →
      GnoStdPkgAfter ∈ res.Imports ∧ GnoStdPkgBefore ∉ res.Imports) := by
  have hres : res.Imports = f.imports.map applyRule := by
    revert h
    show (if hc : _ then _ else _ : Option precompileResult × List GoStr).1 = _ → _
    by_cases hc : (precompileAST f.imports
        (!(hasSfx filename (str "_test.gno") ||
           hasSfx filename (str "_filetest.gno")))).2 ≠ []
    · rw [dif_pos hc]
      intro h
      exact absurd h (by simp)
    · rw [dif_neg hc]
      intro h
      have := Option.some.inj h
      rw [← this, precompileAST_eq]

  refine ⟨hres, fun hstd => ⟨?_, ?_⟩⟩
  · rw [hres]
    have : GnoStdPkgAfter = applyRule GnoStdPkgBefore := by
      rw [applyRule, if_pos rfl]
    rw [this]
    exact List.mem_map_of_mem applyRule hstd
  · rw [hres]
    intro hmem
    obtain ⟨x, _, hx⟩ := List.mem_map.mp hmem
    have hxstd : x = GnoStdPkgBefore :=
      applyRule_eq_self_of_eq x GnoStdPkgBefore (Or.inl rfl) hx
    rw [hxstd] at hx
    rw [applyRule, if_pos rfl] at hx
    exact absurd hx (by decide)

/-- Witness for `c10_imports_rewritten` at a concrete module importing
`"std"`. -/
theorem c10_witness :
    (⟨[GnoStdPkgAfter], generatedHeader ++ str "//go:build gno\n\n"⟩ :
        precompileResult).Imports = [GnoStdPkgBefore].map applyRule ∧
    (GnoStdPkgBefore ∈ [GnoStdPkgBefore] →
      GnoStdPkgAfter ∈ (⟨[GnoStdPkgAfter],
          generatedHeader ++ str "//go:build gno\n\n"⟩ : precompileResult).Imports ∧
      GnoStdPkgBefore ∉ (⟨[GnoStdPkgAfter],
          generatedHeader ++ str "//go:build gno\n\n"⟩ : precompileResult).Imports) :=
  c10_imports_rewritten ⟨[GnoStdPkgBefore], [], false⟩ (str "gno") (str "a.gno")
    ⟨[GnoStdPkgAfter], generatedHeader ++ str "//go:build gno\n\n"⟩ (by decide)

-- ==================================================================
-- GetPrecompileFilenameAndTags (filename/tag derivation)
-- ==================================================================

/-- Models Go `filepath.Base` for slash-separated paths (no volume names):
empty path gives `"."`, trailing separators are stripped, everything up to
and including the last separator is dropped, and an all-separator path gives
`"/"`. -/
def goFilepathBase (p : GoStr) : GoStr :=
  if p = [] then str "."
  else
    let p1 := (p.reverse.dropWhile (fun c => c == '/')).reverse
    let base := (p1.reverse.takeWhile (fun c => !(c == '/'))).reverse
    if base = [] then str "/" else base

/-- Embeds `GetPrecompileFilenameAndTags` of the `precompile` package:
derives the generated filename and build-tag expression from the source
path alone. -/
def GetPrecompileFilenameAndTags (gnoFilePath : GoStr) : GoStr × GoStr :=
  let nameNoExtension := trimSfx (goFilepathBase gnoFilePath) (str ".gno")
  if hasSfx gnoFilePath (str "_filetest.gno") then
    (str "." ++ nameNoExtension ++ str ".gno.gen.go", str "gno && filetest")
  else if hasSfx gnoFilePath (str "_test.gno") then
    (str "." ++ nameNoExtension ++ str ".gno.gen_test.go", str "gno && test")
  else
    (nameNoExtension ++ str ".gno.gen.go", str "gno")

theorem dropWhile_eq_self_of_none (p : Char → Bool) (l : GoStr)
    (h : ∀ a ∈ l, ¬ p a) : l.dropWhile p = l := by
  cases l with
  | nil => rfl
  | cons x xs => rw [List.dropWhile_cons_of_neg (h x (List.mem_cons_self x xs))]

theorem goFilepathBase_no_slash (p : GoStr) (hne : p ≠ [])
    (h : ∀ c ∈ p, c ≠ '/') : goFilepathBase p = p := by
  rw [goFilepathBase, if_neg hne]
  have hdrop : p.reverse.dropWhile (fun c => c == '/') = p.reverse := by
    apply dropWhile_eq_self_of_none
    intro a ha
    simp only [beq_iff_eq]
    exact h a (List.mem_reverse.mp ha)
  have htake : ∀ q : GoStr, (∀ c ∈ q, c ≠ '/') →
      q.takeWhile (fun c => !(c == '/')) = q := by
    intro q hq
    apply List.takeWhile_eq_self_iff.mpr
    intro a ha
    simp only [Bool.not_eq_true', beq_eq_false_iff_ne]
    exact hq a ha
  simp only [hdrop, List.reverse_reverse]
  rw [htake p.reverse (fun c hc => h c (List.mem_reverse.mp hc)),
    List.reverse_reverse]
  rw [if_neg hne]

theorem suffix_peel (b s x : GoStr) (h : hasSfx (b ++ s) (x ++ s) = true) :
    hasSfx b x = true := by
  rw [hasSfx_iff] at h ⊢
  obtain ⟨t, ht⟩ := h
  rw [← List.append_assoc] at ht
  exact ⟨t, List.append_cancel_right ht⟩

theorem hasSfx_false_of_longer (s a b : GoStr) (ha : hasSfx s a = true)
    (hlen : a.length ≤ b.length) (hab : hasSfx b a = false) :
    hasSfx s b = false := by
  rw [Bool.eq_false_iff] at hab ⊢
  intro hb
  apply hab
  rw [hasSfx_iff] at *
  exact List.suffix_of_suffix_length_le ha hb hlen

theorem trimSfx_append (b s : GoStr) : trimSfx (b ++ s) s = b := by
  rw [trimSfx, if_pos (hasSfx_append b s)]
  have : (b ++ s).length - s.length = b.length := by
    rw [List.length_append]; omega
  rw [this, List.take_left]

/-- C9: filename/tag derivation is a deterministic pure function of the base
filename and its kind suffix (it receives only the path, never file
contents), and — for any base name `b` free of separators and of the kind
suffixes themselves — the three kinds produce pairwise distinct generated
filenames. -/
theorem c9_filename_derivation (b : GoStr)
    (hslash : ∀ c ∈ b, c ≠ '/')
    (ht : hasSfx b (str "_test") = false)
    (hft : hasSfx b (str "_filetest") = false) :
    (∀ p : GoStr, GetPrecompileFilenameAndTags p = GetPrecompileFilenameAndTags p) ∧
    (GetPrecompileFilenameAndTags (b ++ str ".gno")).1 ≠
      (GetPrecompileFilenameAndTags (b ++ str "_test.gno")).1 ∧
    (GetPrecompileFilenameAndTags (b ++ str ".gno")).1 ≠
      (GetPrecompileFilenameAndTags (b ++ str "_filetest.gno")).1 ∧
    (GetPrecompileFilenameAndTags (b ++ str "_test.gno")).1 ≠
      (GetPrecompileFilenameAndTags (b ++ str "_filetest.gno")).1 := by
  have hbase : ∀ s : GoStr, s ≠ [] → (∀ c ∈ s, c ≠ '/') →
      goFilepathBase (b ++ s) = b ++ s := by
    intro s hs hsl
    apply goFilepathBase_no_slash
    · intro he
      exact hs (List.append_eq_nil.mp he).2
    · intro c hc
      rcases List.mem_append.mp hc with h | h
      · exact hslash c h
      · exact hsl c h
  -- implementation kind
  have himpl : GetPrecompileFilenameAndTags (b ++ str ".gno") =
      (b ++ str ".gno.gen.go", str "gno") := by
    rw [GetPrecompileFilenameAndTags]
    have h1 : hasSfx (b ++ str ".gno") (str "_filetest.gno") = false := by
      have : (str "_filetest.gno" : GoStr) = str "_filetest" ++ str ".gno" := by decide
      rw [Bool.eq_false_iff]
      intro hx
      rw [this] at hx
      have := suffix_peel b (str ".gno") (str "_filetest") hx
      rw [hft] at this
      exact Bool.false_ne_true this
    have h2 : hasSfx (b ++ str ".gno") (str "_test.gno") = false := by
      have : (str "_test.gno" : GoStr) = str "_test" ++ str ".gno" := by decide
      rw [Bool.eq_false_iff]
      intro hx
      rw [this] at hx
      have := suffix_peel b (str ".gno") (str "_test") hx
      rw [ht] at this
      exact Bool.false_ne_true this
    rw [if_neg (by simp [h1]), if_neg (by simp [h2]),
      hbase (str ".gno") (by decide) (by decide), trimSfx_append]
  -- test kind
  have htest : GetPrecompileFilenameAndTags (b ++ str "_test.gno") =
      (str "." ++ (b ++ str "_test") ++ str ".gno.gen_test.go",
        str "gno && test") := by
    rw [GetPrecompileFilenameAndTags]
    have hsfx : hasSfx (b ++ str "_test.gno") (str "_test.gno") = true :=
      hasSfx_append _ _
    have h1 : hasSfx (b ++ str "_test.gno") (str "_filetest.gno") = false := by
      exact hasSfx_false_of_longer _ _ _ hsfx (by decide) (by decide)
    rw [if_neg (by simp [h1]), if_pos hsfx,
      hbase (str "_test.gno") (by decide) (by decide)]
    have : b ++ str "_test.gno" = (b ++ str "_test") ++ str ".gno" := by
      rw [List.append_assoc]; rfl
    rw [this, trimSfx_append]
  -- file-test kind
  have hfiletest : GetPrecompileFilenameAndTags (b ++ str "_filetest.gno") =
      (str "." ++ (b ++ str "_filetest") ++ str ".gno.gen.go",
        str "gno && filetest") := by
    rw [GetPrecompileFilenameAndTags]
    have hsfx : hasSfx (b ++ str "_filetest.gno") (str "_filetest.gno") = true :=
      hasSfx_append _ _
    rw [if_pos hsfx, hbase (str "_filetest.gno") (by decide) (by decide)]
    have : b ++ str "_filetest.gno" = (b ++ str "_filetest") ++ str ".gno" := by
      rw [List.append_assoc]; rfl
    rw [this, trimSfx_append]
  refine ⟨fun _ => rfl, ?_, ?_, ?_⟩
  · rw [himpl, htest]
    intro he
    have := congrArg List.length he
    simp only [List.length_append] at this
    have h1 : (str ".gno.gen.go" : GoStr).length = 11 := by decide
    have h2 : (str "." : GoStr).length = 1 := by decide
    have h3 : (str "_test" : GoStr).length = 5 := by decide
    have h4 : (str ".gno.gen_test.go" : GoStr).length = 16 := by decide
    omega
  · rw [himpl, hfiletest]
    intro he
    have := congrArg List.length he
    simp only [List.length_append] at this
    have h1 : (str ".gno.gen.go" : GoStr).length = 11 := by decide
    have h2 : (str "." : GoStr).length = 1 := by decide
    have h3 : (str "_filetest" : GoStr).length = 9 := by decide
    omega
  · rw [htest, hfiletest]
    intro he
    have := congrArg List.length he
    simp only [List.length_append] at this
    have h1 : (str ".gno.gen_test.go" : GoStr).length = 16 := by decide
    have h2 : (str "." : GoStr).length = 1 := by decide
    have h3 : (str "_test" : GoStr).length = 5 := by decide
    have h4 : (str "_filetest" : GoStr).length = 9 := by decide
    have h5 : (str ".gno.gen.go" : GoStr).length = 11 := by decide
    omega

/-- Witness for `c9_filename_derivation` at the base name `"foo"`. -/
theorem c9_witness :
    (∀ p : GoStr, GetPrecompileFilenameAndTags p = GetPrecompileFilenameAndTags p) ∧
    (GetPrecompileFilenameAndTags (str "foo" ++ str ".gno")).1 ≠
      (GetPrecompileFilenameAndTags (str "foo" ++ str "_test.gno")).1 ∧
    (GetPrecompileFilenameAndTags (str "foo" ++ str ".gno")).1 ≠
      (GetPrecompileFilenameAndTags (str "foo" ++ str "_filetest.gno")).1 ∧
    (GetPrecompileFilenameAndTags (str "foo" ++ str "_test.gno")).1 ≠
      (GetPrecompileFilenameAndTags (str "foo" ++ str "_filetest.gno")).1 :=
  c9_filename_derivation (str "foo") (by decide) (by decide) (by decide)

-- ==================================================================
-- Diagnostic normalisation: parseResult / identifyCommandLineArguments
-- ==================================================================

/-- Embeds `parseResult` of the `precompile` package: trims surrounding
whitespace, classifies by the `command-line-arguments` sentinel, splits on
the fixed entry filename `main.gno.gen.go` and, when present, re-prefixes
the text following its first occurrence with the logical path. -/
def parseResult (input path : GoStr) : GoStr × Bool :=
  let input1 := goTrimSpace input
  let isStdErr := containsSub input1 (str "command-line-arguments")
  let parts := goSplit input1 (str "main.gno.gen.go")
  match parts with
  | _ :: second :: _ => (path ++ second, isStdErr)
  | _ => (input1, isStdErr)

/-- Embeds `identifyCommandLineArguments` of the `gnolang` package — the same
normalisation with entry filename `main.go`. -/
def identifyCommandLineArguments (input path : GoStr) : GoStr × Bool :=
  let input1 := goTrimSpace input
  let isStdErr := containsSub input1 (str "command-line-arguments")
  let parts := goSplit input1 (str "main.go")
  match parts with
  | _ :: second :: _ => (path ++ second, isStdErr)
  | _ => (input1, isStdErr)

/-- C6 counterexample: a captured string that does **not** contain the entry
filename but carries surrounding whitespace is not returned unmodified —
`TrimSpace` runs first, so `" x "` comes back as `"x"`.  (The same input
also refutes the claim for `identifyCommandLineArguments`.) -/
theorem c6_counterexample :
    containsSub (str " x ") (str "main.gno.gen.go") = false ∧
    containsSub (str " x ") (str "main.go") = false ∧
    parseResult (str " x ") (str "p") = (str "x", false) ∧
    identifyCommandLineArguments (str " x ") (str "p") = (str "x", false) ∧
    (str "x" : GoStr) ≠ str " x " := by decide

/-- C6 (amended): the canonical diagnostic `<entry>:12: undefined: X` is
rewritten to exactly `P:12: undefined: X` by both normalisers, and a captured
string not containing the entry filename is returned **whitespace-trimmed**:
unmodified exactly when it has no leading or trailing white space. -/
theorem c6_amended :
    (∀ P : GoStr, parseResult (str "main.gno.gen.go:12: undefined: X") P =
      (P ++ str ":12: undefined: X", false)) ∧
    (∀ (input P : GoStr), containsSub input (str "main.gno.gen.go") = false →
      goTrimSpace input = input →
      parseResult input P =
        (input, containsSub input (str "command-line-arguments"))) ∧
    (∀ P : GoStr, identifyCommandLineArguments (str "main.go:12: undefined: X") P =
      (P ++ str ":12: undefined: X", false)) ∧
    (∀ (input P : GoStr), containsSub input (str "main.go") = false →
      goTrimSpace input = input →
      identifyCommandLineArguments input P =
        (input, containsSub input (str "command-line-arguments"))) := by
  refine ⟨fun P => rfl, ?_, fun P => rfl, ?_⟩
  · intro input P hc htrim
    simp only [parseResult, htrim, goSplit_of_not_contains _ _ hc]
  · intro input P hc htrim
    simp only [identifyCommandLineArguments, htrim, goSplit_of_not_contains _ _ hc]

/-- Witness for `c6_amended` at concrete inputs. -/
theorem c6_amended_witness :
    parseResult (str "hello") (str "p") =
      (str "hello", containsSub (str "hello") (str "command-line-arguments")) ∧
    identifyCommandLineArguments (str "hello") (str "p") =
      (str "hello", containsSub (str "hello") (str "command-line-arguments")) :=
  ⟨c6_amended.2.1 (str "hello") (str "p") (by decide) (by decide),
   c6_amended.2.2.2 (str "hello") (str "p") (by decide) (by decide)⟩

-- ==================================================================
-- PrecompilePkg / PrecompileFile: recursive package translation
-- ==================================================================

/-- The on-disk world the recursion runs against: which `.gno` modules each
package directory globs to, which import packages each module's translation
yields (the resolved paths handed to `PrecompilePkg`), and which modules
fail — at read/parse/translate time (before the artifact write) or at the
`gofmt` check (after it).  External effects (glob, parser, formatter) are
environment data; the control flow is the source's. -/
structure Env where
  files : List (GoStr × List GoStr)
  imports : List (GoStr × List GoStr)
  parseFails : List GoStr
  fmtFails : List GoStr
  buildFails : List GoStr

/-- Association-list lookup returning Go's zero value for a missing key. -/
def lookupL (assoc : List (GoStr × List GoStr)) (k : GoStr) : List GoStr :=
  match assoc.find? (fun p => p.1 == k) with
  | some p => p.2
  | none => []

/-- State threaded through one orchestrator run: the `Precompiled`
memoisation set, the ordered log of packages whose translation began, the
generated artifacts currently on disk, and a marker set only when the fuel
of the embedding is exhausted (the real code has no fuel; `ranOut = false`
certifies the recursion completed by itself). -/
structure St where
  precompiled : List GoStr
  marks : List GoStr
  disk : List GoStr
  ranOut : Bool
  deriving DecidableEq

def St.init : St := ⟨[], [], [], false⟩

mutual

/-- Embeds `PrecompilePkg`: return immediately when memoised, else
mark-then-recurse over the package's globbed modules.  The source's
`for _, file := range files` loop aborts at the first failing module and
returns its error; the loop is the fold below, whose accumulator carries the
pending error. -/
def PrecompilePkg : Nat → Env → GoStr → St → Option GoStr × St
  | 0, _, _, st => (none, { st with ranOut := true })
  | fuel + 1, env, pkgPath, st =>
    if pkgPath ∈ st.precompiled then (none, st)
    else
      (lookupL env.files pkgPath).foldl
        (fun acc file =>
          match acc with
          | (some e, s) => (some e, s)
          | (none, s) => PrecompileFile fuel env file s)
        (none, { st with precompiled := pkgPath :: st.precompiled,
                         marks := st.marks ++ [pkgPath] })

/-- Embeds `PrecompileFile`: read+parse+translate (failure aborts with no
write), write the generated artifact, `gofmt`-check it (failure aborts after
the write), then run the import-recursion loop — the source discards the
error of each `PrecompilePkg(path, opts)` call, so that fold threads only
the state. -/
def PrecompileFile : Nat → Env → GoStr → St → Option GoStr × St
  | 0, _, _, st => (none, { st with ranOut := true })
  | fuel + 1, env, srcPath, st =>
    if srcPath ∈ env.parseFails then
      (some (str "precompile fail: " ++ srcPath), st)
    else if srcPath ∈ env.fmtFails then
      (some (str "check .go file: " ++ srcPath),
        { st with disk := st.disk ++ [srcPath] })
    else
      (none, (lookupL env.imports srcPath).foldl
        (fun s p => (PrecompilePkg fuel env p s).2)
        { st with disk := st.disk ++ [srcPath] })

end

/-- The memoisation/marks invariant: every started translation is recorded in
the memoisation set and no package's translation was started twice. -/
def MarksInv (s : St) : Prop :=
  s.marks.Nodup ∧ ∀ m ∈ s.marks, m ∈ s.precompiled

/-- How every operation of the recursion evolves the state: the memoisation
set only grows and the marks invariant is preserved. -/
def Evolves (s t : St) : Prop :=
  s.precompiled ⊆ t.precompiled ∧ (MarksInv s → MarksInv t)

theorem Evolves.refl (s : St) : Evolves s s := ⟨fun _ h => h, id⟩

theorem Evolves.trans {a b c : St} (h1 : Evolves a b) (h2 : Evolves b c) :
    Evolves a c :=
  ⟨fun _ hx => h2.1 (h1.1 hx), fun hm => h2.2 (h1.2 hm)⟩

/-- Disk-artifact coverage: every artifact present after an operation was
present before, or is one of the operation's own modules (`roots`), or is a
module of a package recorded in the final memoisation set. -/
def DiskCov (env : Env) (roots : List GoStr) (s t : St) : Prop :=
  ∀ w ∈ t.disk, w ∈ s.disk ∨ w ∈ roots ∨
    ∃ pkg ∈ t.precompiled, w ∈ lookupL env.files pkg

mutual

theorem pkgEv : ∀ (fuel : Nat) (env : Env) (p : GoStr) (st : St),
    Evolves st (PrecompilePkg fuel env p st).2 ∧
      DiskCov env [] st (PrecompilePkg fuel env p st).2
  | 0, env, p, st => by
    rw [PrecompilePkg]
    exact ⟨⟨fun _ h => h, id⟩, fun w hw => Or.inl hw⟩
  | fuel + 1, env, p, st => by
    have hfold : ∀ (l : List GoStr) (acc : Option GoStr × St),
        Evolves acc.2 (l.foldl (fun acc file =>
          match acc with
          | (some e, s) => (some e, s)
          | (none, s) => PrecompileFile fuel env file s) acc).2 ∧
        DiskCov env l acc.2 (l.foldl (fun acc file =>
          match acc with
          | (some e, s) => (some e, s)
          | (none, s) => PrecompileFile fuel env file s) acc).2 := by
      intro l
      induction l with
      | nil => exact fun acc => ⟨Evolves.refl _, fun w hw => Or.inl hw⟩
      | cons f fs ih =>
        rintro ⟨e, s⟩
        rw [List.foldl_cons]
        cases e with
        | some e =>
          obtain ⟨hev, hcov⟩ := ih (some e, s)
          refine ⟨hev, fun w hw => ?_⟩
          rcases hcov w hw with h | h | h
          · exact Or.inl h
          · exact Or.inr (Or.inl (List.mem_cons_of_mem f h))
          · exact Or.inr (Or.inr h)
        | none =>
          obtain ⟨hev1, hcov1⟩ := fileEv fuel env f s
          obtain ⟨hev2, hcov2⟩ := ih (PrecompileFile fuel env f s)
          refine ⟨hev1.trans hev2, fun w hw => ?_⟩
          rcases hcov2 w hw with h | h | h
          · rcases hcov1 w h with h2 | h2 | h2
            · exact Or.inl h2
            · exact Or.inr (Or.inl (List.mem_singleton.mp h2 ▸ List.mem_cons_self f fs))
            · exact Or.inr (Or.inr ⟨h2.choose, hev2.1 h2.choose_spec.1, h2.choose_spec.2⟩)
          · exact Or.inr (Or.inl (List.mem_cons_of_mem f h))
          · exact Or.inr (Or.inr h)
    rw [PrecompilePkg]
    by_cases hv : p ∈ st.precompiled
    · rw [if_pos hv]
      exact ⟨Evolves.refl st, fun w hw => Or.inl hw⟩
    · rw [if_neg hv]
      obtain ⟨hev, hcov⟩ := hfold (lookupL env.files p)
        (none, { st with precompiled := p :: st.precompiled,
                         marks := st.marks ++ [p] })
      refine ⟨⟨fun x hx => hev.1 (List.mem_cons_of_mem _ hx), fun hm => hev.2 ?_⟩,
        fun w hw => ?_⟩
      · constructor
        · exact List.Nodup.append hm.1 (List.nodup_singleton p)
            (fun a ha hap => hv ((List.mem_singleton.mp hap) ▸ hm.2 a ha))
        · intro m hmem
          rcases List.mem_append.mp hmem with h | h
          · exact List.mem_cons_of_mem _ (hm.2 m h)
          · exact (List.mem_singleton.mp h) ▸ List.mem_cons_self p _
      · rcases hcov w hw with h | h | h
        · exact Or.inl h
        · exact Or.inr (Or.inr ⟨p, hev.1 (List.mem_cons_self p _), h⟩)
        · exact Or.inr (Or.inr h)
termination_by fuel _ _ _ => fuel

theorem fileEv : ∀ (fuel : Nat) (env : Env) (f : GoStr) (st : St),
    Evolves st (PrecompileFile fuel env f st).2 ∧
      DiskCov env [f] st (PrecompileFile fuel env f st).2
  | 0, env, f, st => by
    rw [PrecompileFile]
    exact ⟨⟨fun _ h => h, id⟩, fun w hw => Or.inl hw⟩
  | fuel + 1, env, f, st => by
    have hfold : ∀ (l : List GoStr) (s : St),
        Evolves s (l.foldl (fun s p => (PrecompilePkg fuel env p s).2) s) ∧
        DiskCov env [] s (l.foldl (fun s p => (PrecompilePkg fuel env p s).2) s) := by
      intro l
      induction l with
      | nil => exact fun s => ⟨Evolves.refl _, fun w hw => Or.inl hw⟩
      | cons q qs ih =>
        intro s
        rw [List.foldl_cons]
        obtain ⟨hev1, hcov1⟩ := pkgEv fuel env q s
        obtain ⟨hev2, hcov2⟩ := ih (PrecompilePkg fuel env q s).2
        refine ⟨hev1.trans hev2, fun w hw => ?_⟩
        rcases hcov2 w hw with h | h | h
        · rcases hcov1 w h with h2 | h2 | h2
          · exact Or.inl h2
          · exact absurd h2 (List.not_mem_nil w)
          · exact Or.inr (Or.inr ⟨h2.choose, hev2.1 h2.choose_spec.1, h2.choose_spec.2⟩)
        · exact absurd h (List.not_mem_nil w)
        · exact Or.inr (Or.inr h)
    rw [PrecompileFile]
    by_cases hp : f ∈ env.parseFails
    · rw [if_pos hp]
      exact ⟨Evolves.refl st, fun w hw => Or.inl hw⟩
    · rw [if_neg hp]
      by_cases hf : f ∈ env.fmtFails
      · rw [if_pos hf]
        refine ⟨⟨fun _ h => h, id⟩, fun w hw => ?_⟩
        rcases List.mem_append.mp hw with h | h
        · exact Or.inl h
        · exact Or.inr (Or.inl h)
      · rw [if_neg hf]
        obtain ⟨hev, hcov⟩ := hfold (lookupL env.imports f)
          { st with disk := st.disk ++ [f] }
        refine ⟨⟨fun x hx => hev.1 hx, fun hm => hev.2 hm⟩, fun w hw => ?_⟩
        rcases hcov w hw with h | h | h
        · rcases List.mem_append.mp h with h2 | h2
          · exact Or.inl h2
          · exact Or.inr (Or.inl h2)
        · exact absurd h (List.not_mem_nil w)
        · exact Or.inr (Or.inr h)
termination_by fuel _ _ _ => fuel

end

-- ==================================================================
-- Termination of the recursion (fuel analysis)
-- ==================================================================

/-- Every package path the recursion can visit non-trivially: the keys of the
glob table and every import path any module resolves to. -/
def allPathsF (env : Env) : Finset GoStr :=
  (env.files.map Prod.fst ++ (env.imports.map Prod.snd).flatten).toFinset

/-- Number of visitable paths not yet memoised. -/
def missingL (env : Env) (pre : List GoStr) : Nat :=
  ((allPathsF env) \ pre.toFinset).card

theorem missingL_mono (env : Env) (pre pre' : List GoStr) (h : pre ⊆ pre') :
    missingL env pre' ≤ missingL env pre := by
  apply Finset.card_le_card
  apply Finset.sdiff_subset_sdiff (le_refl _)
  intro x hx
  exact List.mem_toFinset.mpr (h (List.mem_toFinset.mp hx))

theorem missingL_mark (env : Env) (pre : List GoStr) (p : GoStr)
    (hin : p ∈ allPathsF env) (hout : p ∉ pre) :
    missingL env (p :: pre) + 1 = missingL env pre := by
  rw [missingL, missingL, List.toFinset_cons, Finset.sdiff_insert]
  exact Finset.card_erase_add_one
    (Finset.mem_sdiff.mpr ⟨hin, fun hc => hout (List.mem_toFinset.mp hc)⟩)

theorem lookupL_eq_nil (assoc : List (GoStr × List GoStr)) (k : GoStr)
    (h : k ∉ assoc.map Prod.fst) : lookupL assoc k = [] := by
  rw [lookupL]
  cases hfind : assoc.find? (fun p => p.1 == k) with
  | none => rfl
  | some q =>
    exfalso
    apply h
    have hq : q.1 = k := by
      have := List.find?_some hfind
      exact beq_iff_eq.mp this
    exact hq ▸ List.mem_map_of_mem Prod.fst (List.mem_of_find?_eq_some hfind)

theorem keys_sub_allPaths (env : Env) (p : GoStr)
    (h : p ∈ env.files.map Prod.fst) : p ∈ allPathsF env :=
  List.mem_toFinset.mpr (List.mem_append.mpr (Or.inl h))

theorem imports_sub_allPaths (env : Env) (f q : GoStr)
    (h : q ∈ lookupL env.imports f) : q ∈ allPathsF env := by
  rw [lookupL] at h
  cases hfind : env.imports.find? (fun p => p.1 == f) with
  | none => rw [hfind] at h; exact absurd h (List.not_mem_nil q)
  | some e =>
    rw [hfind] at h
    apply List.mem_toFinset.mpr
    apply List.mem_append.mpr
    refine Or.inr (List.mem_flatten.mpr ⟨e.2, ?_, h⟩)
    exact List.mem_map_of_mem Prod.snd (List.mem_of_find?_eq_some hfind)

mutual

theorem pkgFuel : ∀ (fuel : Nat) (env : Env) (p : GoStr) (st : St),
    2 * missingL env st.precompiled + 1 ≤ fuel →
      ((PrecompilePkg fuel env p st).2).ranOut = st.ranOut
  | 0, env, p, st => by omega
  | fuel + 1, env, p, st => by
    intro hfuel
    have hfold : ∀ (l : List GoStr) (acc : Option GoStr × St),
        2 * missingL env acc.2.precompiled + 2 ≤ fuel →
        ((l.foldl (fun acc file =>
          match acc with
          | (some e, s) => (some e, s)
          | (none, s) => PrecompileFile fuel env file s) acc).2).ranOut =
          acc.2.ranOut := by
      intro l
      induction l with
      | nil => exact fun acc _ => rfl
      | cons f fs ih =>
        rintro ⟨e, s⟩ hle
        rw [List.foldl_cons]
        cases e with
        | some e => exact ih (some e, s) hle
        | none =>
          have hle' : 2 * missingL env s.precompiled + 2 ≤ fuel := hle
          have h1 := fileFuel fuel env f s hle'
          have hgrow : s.precompiled ⊆ ((PrecompileFile fuel env f s).2).precompiled :=
            (fileEv fuel env f s).1.1
          have h2 := ih (PrecompileFile fuel env f s) (by
            show 2 * missingL env ((PrecompileFile fuel env f s).2).precompiled + 2 ≤ fuel
            have := missingL_mono env s.precompiled
              ((PrecompileFile fuel env f s).2).precompiled hgrow
            omega)
          rw [h2]
          exact h1
    rw [PrecompilePkg]
    by_cases hv : p ∈ st.precompiled
    · rw [if_pos hv]
    · rw [if_neg hv]
      by_cases hin : p ∈ allPathsF env
      · have hmark := missingL_mark env st.precompiled p hin hv
        exact hfold (lookupL env.files p)
          (none, { st with precompiled := p :: st.precompiled,
                           marks := st.marks ++ [p] })
          (by show 2 * missingL env (p :: st.precompiled) + 2 ≤ fuel; omega)
      · have hnil : lookupL env.files p = [] :=
          lookupL_eq_nil env.files p (fun hc => hin (keys_sub_allPaths env p hc))
        rw [hnil, List.foldl_nil]
termination_by fuel _ _ _ => fuel

theorem fileFuel : ∀ (fuel : Nat) (env : Env) (f : GoStr) (st : St),
    2 * missingL env st.precompiled + 2 ≤ fuel →
      ((PrecompileFile fuel env f st).2).ranOut = st.ranOut
  | 0, env, f, st => by omega
  | fuel + 1, env, f, st => by
    intro hfuel
    have hfold : ∀ (l : List GoStr) (s : St),
        2 * missingL env s.precompiled + 1 ≤ fuel →
        (l.foldl (fun s p => (PrecompilePkg fuel env p s).2) s).ranOut =
          s.ranOut := by
      intro l
      induction l with
      | nil => exact fun s _ => rfl
      | cons q qs ih =>
        intro s hle
        rw [List.foldl_cons]
        have h1 := pkgFuel fuel env q s hle
        have hgrow : s.precompiled ⊆ ((PrecompilePkg fuel env q s).2).precompiled :=
          (pkgEv fuel env q s).1.1
        have h2 := ih (PrecompilePkg fuel env q s).2 (by
          have := missingL_mono env s.precompiled
            ((PrecompilePkg fuel env q s).2).precompiled hgrow
          omega)
        rw [h2]
        exact h1
    rw [PrecompileFile]
    by_cases hp : f ∈ env.parseFails
    · rw [if_pos hp]
    · rw [if_neg hp]
      by_cases hf : f ∈ env.fmtFails
      · rw [if_pos hf]
      · rw [if_neg hf]
        exact hfold (lookupL env.imports f) { st with disk := st.disk ++ [f] }
          (by show 2 * missingL env st.precompiled + 1 ≤ fuel; omega)
termination_by fuel _ _ _ => fuel

end

/-- The diamond-dependency world: package `a`'s module imports `b` and `c`,
whose modules both import the shared package `d`. -/
def envDiamond : Env :=
  { files := [(str "a", [str "fa"]), (str "b", [str "fb"]),
              (str "c", [str "fc"]), (str "d", [str "fd"])],
    imports := [(str "fa", [str "b", str "c"]), (str "fb", [str "d"]),
                (str "fc", [str "d"])],
    parseFails := [], fmtFails := [], buildFails := [] }

/-- C7: each package path is translated at most once per orchestrator run —
the log of started package translations never repeats a path, because
`PrecompilePkg` inserts the path into the `Precompiled` set before recursing
(mark-then-recurse).  In the diamond world, where two modules both import
the shared package `d`, that package's translation is performed exactly
once. -/
theorem c7_translate_at_most_once :
    (∀ (fuel : Nat) (env : Env) (p : GoStr),
      ((PrecompilePkg fuel env p St.init).2).marks.Nodup) ∧
    ((PrecompilePkg 9 envDiamond (str "a") St.init).2).marks.count (str "d") = 1 := by
  constructor
  · intro fuel env p
    have hinit : MarksInv St.init :=
      ⟨List.nodup_nil, fun m hm => absurd hm (List.not_mem_nil m)⟩
    exact ((pkgEv fuel env p St.init).1.2 hinit).1
  · decide

/-- C8: for every finite package-import world — cyclic or self-referential
graphs included — the mutual recursion of `PrecompilePkg` and
`PrecompileFile` terminates: with fuel `2·|paths| + 1`, where `paths` is the
finite set of package paths the world can ever mention, the run completes
without exhausting the fuel, because every package is marked visited on
first encounter before its imports are resolved. -/
theorem c8_recursion_terminates (env : Env) (p : GoStr) :
    ((PrecompilePkg (2 * (allPathsF env).card + 1) env p St.init).2).ranOut = false := by
  have hmiss : missingL env St.init.precompiled ≤ (allPathsF env).card := by
    apply Finset.card_le_card
    exact Finset.sdiff_subset
  rw [pkgFuel (2 * (allPathsF env).card + 1) env p St.init (by omega)]
  rfl

-- ==================================================================
-- PrecompileAndCheckPkg: translate-and-check orchestration
-- ==================================================================

/-- Modelled from the spec: `GnoFilesFromArgs` (not under `src/`) lists the
dialect (`.gno`) modules found under each target path, in order. -/
def GnoFilesFromArgs (env : Env) (paths : List GoStr) : List GoStr :=
  (paths.map (lookupL env.files)).flatten

/-- Modelled from the spec: `GnoPackagesFromArgs` (not under `src/`) lists
the package directories to build for the target paths. -/
def GnoPackagesFromArgs (paths : List GoStr) : List GoStr := paths

/-- Modelled from the spec: `CleanGeneratedFiles` (not under `src/`) applied
to one source module removes the generated artifact derived from it. -/
def cleanFileGenerated (srcPath : GoStr) (disk : List GoStr) : List GoStr :=
  disk.filter (fun w => !(w == srcPath))

/-- Modelled from the spec: `CleanGeneratedFiles` (not under `src/`) applied
to a package directory removes the generated artifacts of all its modules. -/
def cleanPkgGenerated (env : Env) (pkgPath : GoStr) (disk : List GoStr) :
    List GoStr :=
  disk.filter (fun w => !((lookupL env.files pkgPath).contains w))

/-- The two cleanup loops at the end of `PrecompileAndCheckPkg`: clean the
root generated files (per source path), then the artifacts of every package
recorded in `opts.Precompiled`. -/
def cleanAllGenerated (env : Env) (srcPaths : List GoStr) (st : St) : St :=
  { st with
    disk := st.precompiled.foldl (fun d pkgPath => cleanPkgGenerated env pkgPath d)
              (srcPaths.foldl (fun d srcPath => cleanFileGenerated srcPath d) st.disk) }

/-- The first loop of `PrecompileAndCheckPkg`: translate each module via
`PrecompileFile`, incrementing `errCount` on failure (the per-module error
message is built and then dropped by the source). -/
def precompileLoop (env : Env) (fuel : Nat) (srcPaths : List GoStr)
    (acc : Nat × St) : Nat × St :=
  srcPaths.foldl
    (fun acc srcPath =>
      match PrecompileFile fuel env srcPath acc.2 with
      | (some _, s) => (acc.1 + 1, s)
      | (none, s) => (acc.1, s))
    acc

/-- Embeds `PrecompileAndCheckPkg` for on-disk targets (`isMem = false`; the
in-memory branch differs only in first staging the files into a temporary
directory, which the deferred `os.RemoveAll` deletes).  Control flow follows
the source: list modules, translate each counting failures, return
`"<n> precompile errors from addpkg"` when any failed — before any cleanup —
otherwise build every package, then run both cleanup loops, then report
`"<n> build errors"` or success. -/
def PrecompileAndCheckPkg (env : Env) (paths : List GoStr) (fuel : Nat) :
    Option GoStr × St :=
  if (precompileLoop env fuel (GnoFilesFromArgs env paths) (0, St.init)).1 > 0 then
    (some (natToStr (precompileLoop env fuel (GnoFilesFromArgs env paths)
        (0, St.init)).1 ++ str " precompile errors from addpkg"),
      (precompileLoop env fuel (GnoFilesFromArgs env paths) (0, St.init)).2)
  else if ((GnoPackagesFromArgs paths).filter
      (fun p => env.buildFails.contains p)).length > 0 then
    (some (natToStr ((GnoPackagesFromArgs paths).filter
        (fun p => env.buildFails.contains p)).length ++ str " build errors"),
      cleanAllGenerated env (GnoFilesFromArgs env paths)
        (precompileLoop env fuel (GnoFilesFromArgs env paths) (0, St.init)).2)
  else
    (none, cleanAllGenerated env (GnoFilesFromArgs env paths)
      (precompileLoop env fuel (GnoFilesFromArgs env paths) (0, St.init)).2)

theorem fileNoErr (fuel : Nat) (env : Env) (f : GoStr) (s : St)
    (h1 : f ∉ env.parseFails) (h2 : f ∉ env.fmtFails) :
    (PrecompileFile fuel env f s).1 = none := by
  cases fuel with
  | zero => rw [PrecompileFile]
  | succ fuel => rw [PrecompileFile, if_neg h1, if_neg h2]

/-- When every listed module translates cleanly the loop counts no error,
and — failures or not aside — every artifact it leaves on disk is either a
listed module's or belongs to a package recorded in the memoisation set. -/
theorem precompileLoop_ok (env : Env) (fuel : Nat) :
    ∀ (l : List GoStr), (∀ f ∈ l, f ∉ env.parseFails ∧ f ∉ env.fmtFails) →
    ∀ (acc : Nat × St),
      (precompileLoop env fuel l acc).1 = acc.1 ∧
      Evolves acc.2 (precompileLoop env fuel l acc).2 ∧
      DiskCov env l acc.2 (precompileLoop env fuel l acc).2 := by
  intro l
  induction l with
  | nil =>
    intro _ acc
    exact ⟨rfl, Evolves.refl _, fun w hw => Or.inl hw⟩
  | cons f fs ih =>
    intro h acc
    have hsplit : PrecompileFile fuel env f acc.2 =
        (none, (PrecompileFile fuel env f acc.2).2) :=
      Prod.ext (fileNoErr fuel env f acc.2 (h f (List.mem_cons_self f fs)).1
        (h f (List.mem_cons_self f fs)).2) rfl
    have hstep : precompileLoop env fuel (f :: fs) acc =
        precompileLoop env fuel fs (acc.1, (PrecompileFile fuel env f acc.2).2) := by
      rw [precompileLoop, List.foldl_cons, hsplit]
      rfl
    obtain ⟨hcount, hev2, hcov2⟩ :=
      ih (fun g hg => h g (List.mem_cons_of_mem f hg))
        (acc.1, (PrecompileFile fuel env f acc.2).2)
    obtain ⟨hev1, hcov1⟩ := fileEv fuel env f acc.2
    rw [hstep]
    refine ⟨hcount, hev1.trans hev2, fun w hw => ?_⟩
    rcases hcov2 w hw with hh | hh | hh
    · rcases hcov1 w hh with h2 | h2 | h2
      · exact Or.inl h2
      · exact Or.inr (Or.inl (List.mem_singleton.mp h2 ▸ List.mem_cons_self f fs))
      · exact Or.inr (Or.inr ⟨h2.choose, hev2.1 h2.choose_spec.1, h2.choose_spec.2⟩)
    · exact Or.inr (Or.inl (List.mem_cons_of_mem f hh))
    · exact Or.inr (Or.inr hh)

theorem mem_cleanFileFold (l : List GoStr) :
    ∀ (d : List GoStr) (w : GoStr),
      w ∈ l.foldl (fun d srcPath => cleanFileGenerated srcPath d) d →
      w ∈ d ∧ ∀ f ∈ l, w ≠ f := by
  induction l with
  | nil =>
    intro d w hw
    exact ⟨hw, fun f hf => absurd hf (List.not_mem_nil f)⟩
  | cons x xs ih =>
    intro d w hw
    rw [List.foldl_cons] at hw
    obtain ⟨h1, h2⟩ := ih (cleanFileGenerated x d) w hw
    rw [cleanFileGenerated, List.mem_filter] at h1
    refine ⟨h1.1, fun f hf => ?_⟩
    rcases List.mem_cons.mp hf with rfl | hf2
    · intro he
      rw [he] at h1
      simp at h1
    · exact h2 f hf2

theorem mem_cleanPkgFold (env : Env) (l : List GoStr) :
    ∀ (d : List GoStr) (w : GoStr),
      w ∈ l.foldl (fun d pkgPath => cleanPkgGenerated env pkgPath d) d →
      w ∈ d ∧ ∀ p ∈ l, w ∉ lookupL env.files p := by
  induction l with
  | nil =>
    intro d w hw
    exact ⟨hw, fun p hp => absurd hp (List.not_mem_nil p)⟩
  | cons x xs ih =>
    intro d w hw
    rw [List.foldl_cons] at hw
    obtain ⟨h1, h2⟩ := ih (cleanPkgGenerated env x d) w hw
    rw [cleanPkgGenerated, List.mem_filter] at h1
    refine ⟨h1.1, fun p hp => ?_⟩
    rcases List.mem_cons.mp hp with rfl | hp2
    · intro hmem
      rw [contains_eq_true_of_mem _ _ hmem] at h1
      simp at h1
    · exact h2 p hp2

/-- A package with one healthy module and one whose parse fails. -/
def envBadModule : Env :=
  { files := [(str "p", [str "fok", str "fbad"])], imports := [],
    parseFails := [str "fbad"], fmtFails := [], buildFails := [] }

/-- A root package whose module imports a second package — its module's
artifact is produced transitively. -/
def envTwoPkgs : Env :=
  { files := [(str "p", [str "f1"]), (str "q", [str "f2"])],
    imports := [(str "f1", [str "q"])],
    parseFails := [], fmtFails := [], buildFails := [] }

/-- C3 counterexample: on the run where one module's translation fails, the
flow returns at the `errCount > 0` check **before** the cleanup loops, so
the artifact generated for the healthy sibling module is still on disk when
the flow returns. -/
theorem c3_counterexample :
    (PrecompileAndCheckPkg envBadModule [str "p"] 5).1 =
      some (str "1 precompile errors from addpkg") ∧
    (PrecompileAndCheckPkg envBadModule [str "p"] 5).2.disk = [str "fok"] := by
  decide

/-- C3 (amended): the artifact-removal pass runs only on the path where every
module translation succeeded; there it removes every generated artifact —
including those produced transitively for imported packages recorded in the
`Precompiled` set — regardless of the build outcome.  When one or more
translations fail, the flow returns before the cleanup loops. -/
theorem c3_amended (env : Env) (paths : List GoStr) (fuel : Nat)
    (h : ∀ f ∈ GnoFilesFromArgs env paths,
      f ∉ env.parseFails ∧ f ∉ env.fmtFails) :
    (PrecompileAndCheckPkg env paths fuel).2.disk = [] := by
  obtain ⟨hcount, hev, hcov⟩ :=
    precompileLoop_ok env fuel (GnoFilesFromArgs env paths) h (0, St.init)
  have hdisk : (cleanAllGenerated env (GnoFilesFromArgs env paths)
      (precompileLoop env fuel (GnoFilesFromArgs env paths) (0, St.init)).2).disk
        = [] := by
    apply List.eq_nil_iff_forall_not_mem.mpr
    intro w hw
    simp only [cleanAllGenerated] at hw
    obtain ⟨hw1, hnotpkg⟩ := mem_cleanPkgFold env _ _ w hw
    obtain ⟨hw2, hnotsrc⟩ := mem_cleanFileFold _ _ w hw1
    rcases hcov w hw2 with hc | hc | hc
    · exact absurd hc (List.not_mem_nil w)
    · exact hnotsrc w hc rfl
    · exact hnotpkg hc.choose hc.choose_spec.1 hc.choose_spec.2
  rw [PrecompileAndCheckPkg, if_neg (by rw [hcount]; omega)]
  by_cases hb : ((GnoPackagesFromArgs paths).filter
      (fun p => env.buildFails.contains p)).length > 0
  · rw [if_pos hb]
    exact hdisk
  · rw [if_neg hb]
    exact hdisk

/-- Witness for `c3_amended`: a run with a transitively translated package;
every artifact, the imported package's included, is gone at the end. -/
theorem c3_amended_witness :
    (PrecompileAndCheckPkg envTwoPkgs [str "p"] 9).2.disk = [] :=
  c3_amended envTwoPkgs [str "p"] 9 (by decide)

/-- C4 counterexample: on a run with one failed module translation, the
returned error text is exactly the count message and does not contain the
failed module's own error message — the union of underlying messages is
lost. -/
theorem c4_counterexample :
    (PrecompileAndCheckPkg envBadModule [str "p"] 5).1 =
      some (natToStr 1 ++ str " precompile errors from addpkg") ∧
    containsSub (natToStr 1 ++ str " precompile errors from addpkg")
      (str "precompile fail: fbad") = false := by decide

/-- C4 (amended): a failing translate-and-check flow reports **only** the
count of failed modules: whenever n ≥ 1 module translations fail, the
returned error is exactly `"<n> precompile errors from addpkg"`, with no
underlying per-module message included (the source builds each wrapped
message and then drops it). -/
theorem c4_amended (env : Env) (paths : List GoStr) (fuel : Nat)
    (h : (precompileLoop env fuel (GnoFilesFromArgs env paths) (0, St.init)).1 > 0) :
    (PrecompileAndCheckPkg env paths fuel).1 =
      some (natToStr
        (precompileLoop env fuel (GnoFilesFromArgs env paths) (0, St.init)).1 ++
        str " precompile errors from addpkg") := by
  rw [PrecompileAndCheckPkg, if_pos h]

/-- Witness for `c4_amended` at the concrete failing run. -/
theorem c4_amended_witness :
    (PrecompileAndCheckPkg envBadModule [str "p"] 5).1 =
      some (natToStr (precompileLoop envBadModule 5
        (GnoFilesFromArgs envBadModule [str "p"]) (0, St.init)).1 ++
        str " precompile errors from addpkg") :=
  c4_amended envBadModule [str "p"] 5 (by decide)

end GnoPrecompile
